import Mathlib

/-
  Shallow embedding of the ray tracer in src/src/main.rs.

  Machine floats (f32) are modelled as real numbers; the Rust thread-local
  random generator is modelled as an explicit stream of values:
  for the integrator, the stream of successive results of
  random_in_unit_sphere, and for the rejection sampler itself, the raw
  stream of uniform draws in [0,1).
-/

noncomputable section

/-- Three-component vector, modelling nalgebra Vector3 of f32. -/
structure Vec3 where
  x : ℝ
  y : ℝ
  z : ℝ

instance : Add Vec3 := ⟨fun u v => ⟨u.x + v.x, u.y + v.y, u.z + v.z⟩⟩

instance : Sub Vec3 := ⟨fun u v => ⟨u.x - v.x, u.y - v.y, u.z - v.z⟩⟩

instance : Neg Vec3 := ⟨fun v => ⟨-v.x, -v.y, -v.z⟩⟩

instance : SMul ℝ Vec3 := ⟨fun a v => ⟨a * v.x, a * v.y, a * v.z⟩⟩

instance : HDiv Vec3 ℝ Vec3 := ⟨fun v a => ⟨v.x / a, v.y / a, v.z / a⟩⟩

/-- Dot product, as in nalgebra. -/
def Vec3.dot (u v : Vec3) : ℝ := u.x * v.x + u.y * v.y + u.z * v.z

/-- Squared Euclidean norm (nalgebra norm_squared). -/
def Vec3.normSq (v : Vec3) : ℝ := v.dot v

/-- Euclidean norm. -/
def Vec3.norm (v : Vec3) : ℝ := Real.sqrt v.normSq

/-- Normalization: the vector divided by its norm (nalgebra normalize). -/
def Vec3.normalize (v : Vec3) : Vec3 := v / v.norm

@[simp] theorem Vec3.add_def (u v : Vec3) :
    u + v = ⟨u.x + v.x, u.y + v.y, u.z + v.z⟩ := rfl

@[simp] theorem Vec3.sub_def (u v : Vec3) :
    u - v = ⟨u.x - v.x, u.y - v.y, u.z - v.z⟩ := rfl

@[simp] theorem Vec3.neg_def (v : Vec3) : -v = ⟨-v.x, -v.y, -v.z⟩ := rfl

@[simp] theorem Vec3.smul_def (a : ℝ) (v : Vec3) :
    a • v = ⟨a * v.x, a * v.y, a * v.z⟩ := rfl

@[simp] theorem Vec3.div_def (v : Vec3) (a : ℝ) :
    HDiv.hDiv v a = (⟨v.x / a, v.y / a, v.z / a⟩ : Vec3) := rfl

/-- A ray: origin and (not necessarily normalized) direction. -/
structure Ray where
  origin : Vec3
  direction : Vec3

/-- Point at parameter t along the ray (Ray::at). -/
def Ray.at (r : Ray) (t : ℝ) : Vec3 := r.origin + t • r.direction

/-- Result of a successful intersection (struct HitRecord). -/
structure HitRecord where
  p : Vec3
  normal : Vec3
  t : ℝ
  front_face : Bool

/-- HitRecord::from: orients the outward normal against the incoming ray. -/
def HitRecord.make (ray : Ray) (p : Vec3) (t : ℝ) (outward_normal : Vec3) :
    HitRecord :=
  let ff := Vec3.dot ray.direction outward_normal < 0
  { p := p
    normal := if ff then outward_normal else -outward_normal
    t := t
    front_face := decide ff }

/-- A sphere primitive: center and radius. -/
structure Sphere where
  center : Vec3
  radius : ℝ

/-- Sphere::hit, translated clause by clause from the Rust source,
including the duplicated fallback-root expression. -/
def Sphere.hit (s : Sphere) (ray : Ray) (t_min t_max : ℝ) :
    Option HitRecord :=
  let oc := ray.origin - s.center
  let a := ray.direction.normSq
  let half_b := Vec3.dot oc ray.direction
  let c := oc.normSq - s.radius * s.radius
  let discriminant := half_b * half_b - a * c
  if discriminant < 0 then none
  else
    let root := (-half_b - Real.sqrt discriminant) / a
    if root < t_min ∨ t_max < root then
      let root := -(half_b + Real.sqrt discriminant) / a
      if root < t_min ∨ t_max < root then none
      else
        let t := root
        let p := ray.at root
        some (HitRecord.make ray p t (HDiv.hDiv (p - s.center) s.radius))
    else
      let t := root
      let p := ray.at root
      some (HitRecord.make ray p t (HDiv.hDiv (p - s.center) s.radius))

/-- The half_b coefficient of the sphere quadratic. -/
def Sphere.halfB (s : Sphere) (ray : Ray) : ℝ :=
  Vec3.dot (ray.origin - s.center) ray.direction

/-- The c coefficient of the sphere quadratic. -/
def Sphere.cCoeff (s : Sphere) (ray : Ray) : ℝ :=
  (ray.origin - s.center).normSq - s.radius * s.radius

/-- The (quarter) discriminant half_b^2 - a*c of the sphere quadratic. -/
def Sphere.disc (s : Sphere) (ray : Ray) : ℝ :=
  s.halfB ray * s.halfB ray - ray.direction.normSq * s.cCoeff ray

/-- The smaller quadratic root (-half_b - sqrt disc) / a. -/
def Sphere.root1 (s : Sphere) (ray : Ray) : ℝ :=
  (-(s.halfB ray) - Real.sqrt (s.disc ray)) / ray.direction.normSq

/-- The larger quadratic root (-half_b + sqrt disc) / a. -/
def Sphere.root2 (s : Sphere) (ray : Ray) : ℝ :=
  (-(s.halfB ray) + Real.sqrt (s.disc ray)) / ray.direction.normSq

/-- The hit record Sphere::hit builds on success. -/
def Sphere.mkHitRec (s : Sphere) (ray : Ray) : HitRecord :=
  HitRecord.make ray (ray.at (s.root1 ray)) (s.root1 ray)
    (HDiv.hDiv (ray.at (s.root1 ray) - s.center) s.radius)

/-- The acceptance predicate carved out of Sphere::hit: nonnegative
discriminant, and the (first) root within the closed range. -/
def Sphere.hitsWithin (s : Sphere) (ray : Ray) (lo hi : ℝ) : Prop :=
  0 ≤ s.disc ray ∧ lo ≤ s.root1 ray ∧ s.root1 ray ≤ hi

/-- The aggregate scan of Objects::hit: fold over the list keeping the
closest hit so far and shrinking the upper bound. -/
def Objects.hitAux (ray : Ray) (t_min : ℝ) :
    List Sphere → ℝ → Option HitRecord → Option HitRecord
  | [], _, best => best
  | s :: rest, closest, best =>
    match Sphere.hit s ray t_min closest with
    | some rec => Objects.hitAux ray t_min rest rec.t (some rec)
    | none => Objects.hitAux ray t_min rest closest best

/-- Objects::hit: scan all members, keep the closest hit. -/
def Objects.hit (world : List Sphere) (ray : Ray) (t_min t_max : ℝ) :
    Option HitRecord :=
  Objects.hitAux ray t_min world t_max none

/-- The background gradient of the miss case of Ray::color. -/
def background (ray : Ray) : Vec3 :=
  let normalized_direction := ray.direction.normalize
  let t := 0.5 * (normalized_direction.y + 1)
  (1 - t) • (⟨1, 1, 1⟩ : Vec3) + t • (⟨0.5, 0.7, 1.0⟩ : Vec3)

/-- Ray::color with the random source modelled as the stream `scatter` of
successive results of random_in_unit_sphere, consumed from index k. -/
def rayColor (world : List Sphere) (ray : Ray) (depth : ℤ)
    (scatter : ℕ → Vec3) (k : ℕ) : Vec3 :=
  if depth ≤ 0 then ⟨0, 0, 0⟩
  else
    match Objects.hit world ray 0 1000 with
    | some hit =>
      let target := hit.p + hit.normal + scatter k
      (0.5 : ℝ) •
        rayColor world ⟨hit.p, target - hit.p⟩ (depth - 1) scatter (k + 1)
    | none => background ray
termination_by depth.toNat
decreasing_by
  simp only [not_le] at *
  omega

/-- Rust clamp(lo, hi): min (max x lo) hi, with lo = 0 and hi = 0.999. -/
def clampColor (x : ℝ) : ℝ := min (max x 0) 0.999

/-- color_to_string: the triple of quantized integer channels that the
formatted string carries (string formatting itself is not modelled). -/
def colorToString (color : Vec3) (samples_per_pixel : ℤ) : ℤ × ℤ × ℤ :=
  let scale := 1 / (samples_per_pixel : ℝ)
  let r := color.x * scale
  let g := color.y * scale
  let b := color.z * scale
  (⌊256 * clampColor r⌋, ⌊256 * clampColor g⌋, ⌊256 * clampColor b⌋)

/-- One candidate of the rejection loop in random_in_unit_sphere: three
consecutive uniform draws of the raw stream g, remapped from [0,1) to
[-1,1) by v = 2*v - (1,1,1). -/
def sampleVec (g : ℕ → ℝ) (k : ℕ) : Vec3 :=
  (2 : ℝ) • (⟨g k, g (k + 1), g (k + 2)⟩ : Vec3) - ⟨1, 1, 1⟩

/-- Exit guard of the rejection loop: squared norm strictly below one. -/
def rngAccept (g : ℕ → ℝ) (k : ℕ) : Prop := (sampleVec g k).normSq < 1

/-- The stream g, read from any position, eventually yields an accepted
candidate; under this condition every rejection loop exits. -/
def eventuallyAccepts (g : ℕ → ℝ) : Prop :=
  ∀ m, ∃ j, rngAccept g (m + 3 * j)

/-- The stream g never yields an accepted candidate: the exit guard of
the rejection loop in random_in_unit_sphere never holds, so the loop
runs forever. -/
def neverAccepts (g : ℕ → ℝ) : Prop := ∀ j, ¬ rngAccept g j

/-- Number of rejected iterations the loop performs from position m
before exiting (0 if no candidate is ever accepted). -/
def nextAccept (g : ℕ → ℝ) (m : ℕ) : ℕ :=
  sInf {j | rngAccept g (m + 3 * j)}

/-- random_in_unit_sphere on the raw stream, started at position m:
the first accepted candidate. -/
def randomInUnitSphere (g : ℕ → ℝ) (m : ℕ) : Vec3 :=
  sampleVec g (m + 3 * nextAccept g m)

/-- Ray::color over the raw uniform stream: returns the color, the
stream position after the call, and the number of bounces taken. -/
def rayColorRaw (world : List Sphere) (g : ℕ → ℝ) (ray : Ray)
    (depth : ℤ) (m : ℕ) : Vec3 × ℕ × ℕ :=
  if depth ≤ 0 then (⟨0, 0, 0⟩, m, 0)
  else
    match Objects.hit world ray 0 1000 with
    | some hit =>
      let r := randomInUnitSphere g m
      let target := hit.p + hit.normal + r
      let rest :=
        rayColorRaw world g ⟨hit.p, target - hit.p⟩ (depth - 1)
          (m + 3 * nextAccept g m + 3)
      ((0.5 : ℝ) • rest.1, rest.2.1, rest.2.2 + 1)
    | none => (background ray, m, 0)
termination_by depth.toNat
decreasing_by
  simp only [not_le] at *
  omega

/-- Concrete sphere in front of the origin, used in witnesses. -/
def s5 : Sphere := ⟨⟨0, 0, -2⟩, 1⟩

/-- Concrete ray from the origin along the negative z axis. -/
def ray5 : Ray := ⟨⟨0, 0, 0⟩, ⟨0, 0, -1⟩⟩

/-- The hit record Sphere::hit produces for s5 and ray5. -/
def rec5 : HitRecord := Sphere.mkHitRec s5 ray5

/-- A constant scatter stream, used in witnesses. -/
def scat0 : ℕ → Vec3 := fun _ => ⟨0, 0, 0⟩

/-- Concrete ray pointing along the negative y axis. -/
def ray6 : Ray := ⟨⟨0, 0, 0⟩, ⟨0, -1, 0⟩⟩

/-- Concrete ray along the positive y axis, which misses s5. -/
def ray7 : Ray := ⟨⟨0, 0, 0⟩, ⟨0, 1, 0⟩⟩

/-- The near sphere of the overlap example of the spec (z = -1). -/
def sphereA : Sphere := ⟨⟨0, 0, -1⟩, 0.5⟩

/-- The far sphere of the overlap example of the spec (z = -2). -/
def sphereB : Sphere := ⟨⟨0, 0, -2⟩, 0.5⟩

/-- Unit sphere centered at the origin; ray5 starts at its center. -/
def sphereC1 : Sphere := ⟨⟨0, 0, 0⟩, 1⟩

/-- A sphere whose intersections lie beyond ray parameter 1000. -/
def sFar : Sphere := ⟨⟨0, 0, -2001⟩, 1⟩

/-- The all-zero raw random stream: every candidate is (-1,-1,-1). -/
def zeroStream : ℕ → ℝ := fun _ => 0

/-- The constant one-half raw stream: every candidate is (0,0,0). -/
def halfStream : ℕ → ℝ := fun _ => 1 / 2

@[simp] theorem HitRecord.make_p (ray : Ray) (p : Vec3) (t : ℝ) (n : Vec3) :
    (HitRecord.make ray p t n).p = p := rfl

@[simp] theorem HitRecord.make_t (ray : Ray) (p : Vec3) (t : ℝ) (n : Vec3) :
    (HitRecord.make ray p t n).t = t := rfl

theorem HitRecord.make_normal (ray : Ray) (p : Vec3) (t : ℝ) (n : Vec3) :
    (HitRecord.make ray p t n).normal =
      if Vec3.dot ray.direction n < 0 then n else -n := rfl

theorem HitRecord.make_front_face (ray : Ray) (p : Vec3) (t : ℝ) (n : Vec3) :
    (HitRecord.make ray p t n).front_face =
      decide (Vec3.dot ray.direction n < 0) := rfl

@[simp] theorem Sphere.mkHitRec_t (s : Sphere) (ray : Ray) :
    (s.mkHitRec ray).t = s.root1 ray := rfl

/-- The fallback root expression of Sphere::hit, -(half_b + sqrt d) / a,
is the same real number as the first root (-half_b - sqrt d) / a. -/
theorem Sphere.fallback_root_eq_root1 (s : Sphere) (ray : Ray) :
    -(s.halfB ray + Real.sqrt (s.disc ray)) / ray.direction.normSq
      = s.root1 ray := by
  unfold Sphere.root1
  ring_nf

/-- Closed form of Sphere::hit: because the fallback recomputes the first
root, the function succeeds exactly when the first root is accepted. -/
theorem Sphere.hit_eq (s : Sphere) (ray : Ray) (lo hi : ℝ) :
    Sphere.hit s ray lo hi =
      if 0 ≤ s.disc ray ∧ lo ≤ s.root1 ray ∧ s.root1 ray ≤ hi
      then some (s.mkHitRec ray) else none := by
  have e1 : Vec3.dot (ray.origin - s.center) ray.direction = s.halfB ray := rfl
  have e2 : (ray.origin - s.center).normSq - s.radius * s.radius
      = s.cCoeff ray := rfl
  have e3 : s.halfB ray * s.halfB ray - ray.direction.normSq * s.cCoeff ray
      = s.disc ray := rfl
  have e4 : (-(s.halfB ray) - Real.sqrt (s.disc ray)) / ray.direction.normSq
      = s.root1 ray := rfl
  have e5 := Sphere.fallback_root_eq_root1 s ray
  simp only [Sphere.hit, Sphere.mkHitRec, e1, e2, e3, e4, e5]
  by_cases h1 : s.disc ray < 0
  · simp [h1, not_le.mpr h1]
  · by_cases h2 : s.root1 ray < lo ∨ hi < s.root1 ray
    · simp only [h1, if_false, h2, if_true]
      rw [if_neg]
      intro hcond
      rcases h2 with hl | hr
      · exact absurd hcond.2.1 (not_le.mpr hl)
      · exact absurd hcond.2.2 (not_le.mpr hr)
    · simp only [h1, if_false, h2, if_false]
      rw [if_pos]
      push_neg at h1 h2
      exact ⟨h1, h2.1, h2.2⟩

theorem Sphere.hit_eq_some (s : Sphere) (ray : Ray) (lo hi : ℝ)
    (rec : HitRecord) :
    Sphere.hit s ray lo hi = some rec ↔
      s.hitsWithin ray lo hi ∧ rec = s.mkHitRec ray := by
  rw [Sphere.hit_eq]
  unfold Sphere.hitsWithin
  by_cases h : 0 ≤ s.disc ray ∧ lo ≤ s.root1 ray ∧ s.root1 ray ≤ hi
  · simp [h, eq_comm]
  · simp [h]

theorem Sphere.hit_eq_none (s : Sphere) (ray : Ray) (lo hi : ℝ) :
    Sphere.hit s ray lo hi = none ↔ ¬ s.hitsWithin ray lo hi := by
  rw [Sphere.hit_eq]
  unfold Sphere.hitsWithin
  by_cases h : 0 ≤ s.disc ray ∧ lo ≤ s.root1 ray ∧ s.root1 ray ≤ hi
  · simp [h]
  · simp [h]

theorem Sphere.hitsWithin_mono (s : Sphere) (ray : Ray) (lo : ℝ)
    {hi hi' : ℝ} (h : hi ≤ hi') :
    s.hitsWithin ray lo hi → s.hitsWithin ray lo hi' :=
  fun ⟨a, b, c⟩ => ⟨a, b, c.trans h⟩

/-- Full characterization of the aggregate scan: starting from bound c and
current best hit (whose t equals c), the scan returns none exactly when
nothing new is accepted, and any returned record is either the initial
best or the record of a member accepted within c, with minimal t. -/
theorem Objects.hitAux_spec (ray : Ray) (t_min : ℝ) (l : List Sphere) :
    ∀ (c : ℝ) (best : Option HitRecord),
      (∀ r₀, best = some r₀ → r₀.t = c) →
      (Objects.hitAux ray t_min l c best = none ↔
        (best = none ∧ ∀ s ∈ l, ¬ s.hitsWithin ray t_min c))
      ∧ ∀ rec, Objects.hitAux ray t_min l c best = some rec →
          (best = some rec ∨
            ∃ s ∈ l, s.hitsWithin ray t_min c ∧ rec = s.mkHitRec ray)
          ∧ (∀ r₀, best = some r₀ → rec.t ≤ r₀.t)
          ∧ (∀ s ∈ l, s.hitsWithin ray t_min c → rec.t ≤ s.root1 ray) := by
  induction l with
  | nil =>
    intro c best hInv
    constructor
    · simp [Objects.hitAux]
    · intro rec hrec
      simp only [Objects.hitAux] at hrec
      refine ⟨Or.inl hrec, ?_, ?_⟩
      · intro r₀ h₀
        rw [hrec] at h₀
        cases h₀
        exact le_refl _
      · intro s hs
        exact absurd hs (List.not_mem_nil s)
  | cons s rest ih =>
    intro c best hInv
    by_cases hs : s.hitsWithin ray t_min c
    · have hhit : Sphere.hit s ray t_min c = some (s.mkHitRec ray) :=
        (Sphere.hit_eq_some s ray t_min c _).mpr ⟨hs, rfl⟩
      have hstep : Objects.hitAux ray t_min (s :: rest) c best
          = Objects.hitAux ray t_min rest (s.root1 ray) (some (s.mkHitRec ray)) := by
        simp [Objects.hitAux, hhit]
      have hInv2 : ∀ r₀, some (s.mkHitRec ray) = some r₀ → r₀.t = s.root1 ray := by
        intro r₀ h₀
        cases h₀
        rfl
      obtain ⟨IH1, IH2⟩ := ih (s.root1 ray) (some (s.mkHitRec ray)) hInv2
      constructor
      · rw [hstep]
        constructor
        · intro hnone
          exact absurd (IH1.mp hnone).1 (by simp)
        · intro ⟨_, hall⟩
          exact absurd hs (hall s (List.mem_cons_self s rest))
      · intro rec hrec
        rw [hstep] at hrec
        obtain ⟨hmem, hbest, hall⟩ := IH2 rec hrec
        have hrec_le : rec.t ≤ s.root1 ray := by
          have := hbest (s.mkHitRec ray) rfl
          simpa using this
        refine ⟨?_, ?_, ?_⟩
        · right
          rcases hmem with heq | ⟨s₂, hmem2, hw2, heq2⟩
          · exact ⟨s, List.mem_cons_self s rest, hs, (Option.some_injective _ heq).symm⟩
          · exact ⟨s₂, List.mem_cons_of_mem s hmem2,
              Sphere.hitsWithin_mono s₂ ray t_min hs.2.2 hw2, heq2⟩
        · intro r₀ h₀
          rw [hInv r₀ h₀]
          exact hrec_le.trans hs.2.2
        · intro s₂ hmem2 hw2
          rcases List.mem_cons.mp hmem2 with heq | hmem3
          · rw [heq]
            exact hrec_le
          · by_cases hw3 : s₂.hitsWithin ray t_min (s.root1 ray)
            · exact hall s₂ hmem3 hw3
            · have : s.root1 ray < s₂.root1 ray := by
                by_contra hcon
                push_neg at hcon
                exact hw3 ⟨hw2.1, hw2.2.1, hcon⟩
              exact hrec_le.trans this.le
    · have hhit : Sphere.hit s ray t_min c = none :=
        (Sphere.hit_eq_none s ray t_min c).mpr hs
      have hstep : Objects.hitAux ray t_min (s :: rest) c best
          = Objects.hitAux ray t_min rest c best := by
        simp [Objects.hitAux, hhit]
      obtain ⟨IH1, IH2⟩ := ih c best hInv
      constructor
      · rw [hstep, IH1]
        constructor
        · intro ⟨h1, h2⟩
          refine ⟨h1, ?_⟩
          intro s₂ hmem2
          rcases List.mem_cons.mp hmem2 with heq | hmem3
          · rw [heq]
            exact hs
          · exact h2 s₂ hmem3
        · intro ⟨h1, h2⟩
          exact ⟨h1, fun s₂ hmem2 => h2 s₂ (List.mem_cons_of_mem s hmem2)⟩
      · intro rec hrec
        rw [hstep] at hrec
        obtain ⟨hmem, hbest, hall⟩ := IH2 rec hrec
        refine ⟨?_, hbest, ?_⟩
        · rcases hmem with heq | ⟨s₂, hmem2, hw2, heq2⟩
          · exact Or.inl heq
          · exact Or.inr ⟨s₂, List.mem_cons_of_mem s hmem2, hw2, heq2⟩
        · intro s₂ hmem2 hw2
          rcases List.mem_cons.mp hmem2 with heq | hmem3
          · rw [heq] at hw2
            exact absurd hw2 hs
          · exact hall s₂ hmem3 hw2

theorem Objects.hit_none_iff (world : List Sphere) (ray : Ray)
    (t_min t_max : ℝ) :
    Objects.hit world ray t_min t_max = none ↔
      ∀ s ∈ world, ¬ s.hitsWithin ray t_min t_max := by
  have H := Objects.hitAux_spec ray t_min world t_max none
    (by intro r₀ h₀; cases h₀)
  unfold Objects.hit
  rw [H.1]
  simp

theorem Objects.hit_some_spec (world : List Sphere) (ray : Ray)
    (t_min t_max : ℝ) (rec : HitRecord)
    (h : Objects.hit world ray t_min t_max = some rec) :
    (∃ s ∈ world, s.hitsWithin ray t_min t_max ∧ rec = s.mkHitRec ray)
    ∧ ∀ s ∈ world, s.hitsWithin ray t_min t_max → rec.t ≤ s.root1 ray := by
  have H := (Objects.hitAux_spec ray t_min world t_max none
    (by intro r₀ h₀; cases h₀)).2 rec h
  obtain ⟨hmem, -, hall⟩ := H
  rcases hmem with heq | hmem
  · simp at heq
  · exact ⟨hmem, hall⟩

theorem Objects.hit_map_t_perm (ray : Ray) (t_min t_max : ℝ)
    {w1 w2 : List Sphere} (hp : w1.Perm w2) :
    Option.map HitRecord.t (Objects.hit w1 ray t_min t_max)
      = Option.map HitRecord.t (Objects.hit w2 ray t_min t_max) := by
  cases h1 : Objects.hit w1 ray t_min t_max with
  | none =>
    have h2 : Objects.hit w2 ray t_min t_max = none := by
      rw [Objects.hit_none_iff] at h1 ⊢
      intro s hs
      exact h1 s (hp.mem_iff.mpr hs)
    rw [h2]
  | some rec =>
    obtain ⟨⟨s₁, hs₁, hw₁, heq₁⟩, hall₁⟩ :=
      Objects.hit_some_spec w1 ray t_min t_max rec h1
    cases h2 : Objects.hit w2 ray t_min t_max with
    | none =>
      rw [Objects.hit_none_iff] at h2
      exact absurd hw₁ (h2 s₁ (hp.mem_iff.mp hs₁))
    | some rec₂ =>
      obtain ⟨⟨s₂, hs₂, hw₂, heq₂⟩, hall₂⟩ :=
        Objects.hit_some_spec w2 ray t_min t_max rec₂ h2
      have le1 : rec.t ≤ rec₂.t := by
        have := hall₁ s₂ (hp.mem_iff.mpr hs₂) hw₂
        rw [heq₂]
        simpa using this
      have le2 : rec₂.t ≤ rec.t := by
        have := hall₂ s₁ (hp.mem_iff.mp hs₁) hw₁
        rw [heq₁]
        simpa using this
      simp [le_antisymm le1 le2]

theorem s5_disc : Sphere.disc s5 ray5 = 1 := by
  norm_num [Sphere.disc, Sphere.halfB, Sphere.cCoeff, Vec3.normSq, Vec3.dot,
    s5, ray5]

theorem s5_root1 : Sphere.root1 s5 ray5 = 1 := by
  rw [Sphere.root1, s5_disc, Real.sqrt_one]
  norm_num [Sphere.halfB, Vec3.normSq, Vec3.dot, s5, ray5]

theorem s5_hit : Sphere.hit s5 ray5 0 1000 = some rec5 :=
  (Sphere.hit_eq_some s5 ray5 0 1000 rec5).mpr
    ⟨⟨by rw [s5_disc]; norm_num, by rw [s5_root1]; norm_num,
      by rw [s5_root1]; norm_num⟩, rfl⟩

theorem w5_hit : Objects.hit [s5] ray5 0 1000 = some rec5 := by
  simp [Objects.hit, Objects.hitAux, s5_hit]

theorem sphereA_disc : Sphere.disc sphereA ray5 = 1 / 4 := by
  norm_num [Sphere.disc, Sphere.halfB, Sphere.cCoeff, Vec3.normSq, Vec3.dot,
    sphereA, ray5]

theorem sphereA_root1 : Sphere.root1 sphereA ray5 = 1 / 2 := by
  rw [Sphere.root1, sphereA_disc,
    show (1 / 4 : ℝ) = (1 / 2) ^ 2 by norm_num, Real.sqrt_sq (by norm_num)]
  norm_num [Sphere.halfB, Vec3.normSq, Vec3.dot, sphereA, ray5]

theorem sphereB_disc : Sphere.disc sphereB ray5 = 1 / 4 := by
  norm_num [Sphere.disc, Sphere.halfB, Sphere.cCoeff, Vec3.normSq, Vec3.dot,
    sphereB, ray5]

theorem sphereB_root1 : Sphere.root1 sphereB ray5 = 3 / 2 := by
  rw [Sphere.root1, sphereB_disc,
    show (1 / 4 : ℝ) = (1 / 2) ^ 2 by norm_num, Real.sqrt_sq (by norm_num)]
  norm_num [Sphere.halfB, Vec3.normSq, Vec3.dot, sphereB, ray5]

theorem sphereC1_disc : Sphere.disc sphereC1 ray5 = 1 := by
  norm_num [Sphere.disc, Sphere.halfB, Sphere.cCoeff, Vec3.normSq, Vec3.dot,
    sphereC1, ray5]

theorem sphereC1_root1 : Sphere.root1 sphereC1 ray5 = -1 := by
  rw [Sphere.root1, sphereC1_disc, Real.sqrt_one]
  norm_num [Sphere.halfB, Vec3.normSq, Vec3.dot, sphereC1, ray5]

theorem sphereC1_root2 : Sphere.root2 sphereC1 ray5 = 1 := by
  rw [Sphere.root2, sphereC1_disc, Real.sqrt_one]
  norm_num [Sphere.halfB, Vec3.normSq, Vec3.dot, sphereC1, ray5]

theorem sFar_disc : Sphere.disc sFar ray5 = 1 := by
  norm_num [Sphere.disc, Sphere.halfB, Sphere.cCoeff, Vec3.normSq, Vec3.dot,
    sFar, ray5]

theorem sFar_root1 : Sphere.root1 sFar ray5 = 2000 := by
  rw [Sphere.root1, sFar_disc, Real.sqrt_one]
  norm_num [Sphere.halfB, Vec3.normSq, Vec3.dot, sFar, ray5]

theorem ray6_normalize_y : (ray6.direction.normalize).y = -1 := by
  norm_num [Vec3.normalize, Vec3.norm, Vec3.normSq, Vec3.dot, ray6,
    Real.sqrt_one]

theorem ray7_disc : Sphere.disc s5 ray7 = -3 := by
  norm_num [Sphere.disc, Sphere.halfB, Sphere.cCoeff, Vec3.normSq, Vec3.dot,
    s5, ray7]

theorem halfStream_accepts : eventuallyAccepts halfStream := by
  intro m
  refine ⟨0, ?_⟩
  norm_num [rngAccept, sampleVec, halfStream, Vec3.normSq, Vec3.dot]

theorem Vec3.dot_right_neg (u v : Vec3) :
    Vec3.dot u (-v) = -(Vec3.dot u v) := by
  simp [Vec3.dot]
  ring

theorem dot_make_normal_nonpos (ray : Ray) (p : Vec3) (t : ℝ) (n : Vec3) :
    Vec3.dot ray.direction (HitRecord.make ray p t n).normal ≤ 0 := by
  rw [HitRecord.make_normal]
  by_cases h : Vec3.dot ray.direction n < 0
  · rw [if_pos h]
    exact h.le
  · rw [if_neg h, Vec3.dot_right_neg]
    push_neg at h
    linarith

/-- C1: the spec says that when the first root is outside the range,
Sphere::hit falls back to the larger root (-half_b + sqrt d) / a. The
code instead recomputes -(half_b + sqrt d) / a, which is the same real
number as the first root, so the larger root is never tried: for a ray
cast from the center of the unit sphere the larger root is 1, inside
[0, 1000], yet the function reports no hit. -/
theorem sphere_hit_drops_far_root :
    Sphere.hit sphereC1 ray5 0 1000 = none
    ∧ Sphere.root2 sphereC1 ray5 = 1
    ∧ ((0 : ℝ) ≤ 1 ∧ (1 : ℝ) ≤ 1000) := by
  refine ⟨?_, sphereC1_root2, by norm_num, by norm_num⟩
  rw [Sphere.hit_eq_none]
  rintro ⟨-, h2, -⟩
  rw [sphereC1_root1] at h2
  norm_num at h2

/-- C2: Objects::hit returns the hit with minimum t among all member hits
within [t_min, t_max], the t of the result is invariant under permuting
the object list, and it returns none exactly when no member hits within
the range. -/
theorem objects_hit_nearest (world : List Sphere) (ray : Ray)
    (t_min t_max : ℝ) (_hb : t_min ≤ t_max) :
    (∀ rec, Objects.hit world ray t_min t_max = some rec →
      (∃ s ∈ world, ∃ rec₂, Sphere.hit s ray t_min t_max = some rec₂ ∧
        rec₂.t = rec.t)
      ∧ ∀ s ∈ world, ∀ rec₂, Sphere.hit s ray t_min t_max = some rec₂ →
          rec.t ≤ rec₂.t)
    ∧ (Objects.hit world ray t_min t_max = none ↔
        ∀ s ∈ world, Sphere.hit s ray t_min t_max = none)
    ∧ ∀ world₂, world.Perm world₂ →
        Option.map HitRecord.t (Objects.hit world ray t_min t_max)
          = Option.map HitRecord.t (Objects.hit world₂ ray t_min t_max) := by
  refine ⟨?_, ?_, ?_⟩
  · intro rec h
    obtain ⟨⟨s, hs, hw, heq⟩, hall⟩ :=
      Objects.hit_some_spec world ray t_min t_max rec h
    constructor
    · refine ⟨s, hs, s.mkHitRec ray,
        (Sphere.hit_eq_some s ray t_min t_max _).mpr ⟨hw, rfl⟩, ?_⟩
      rw [heq]
    · intro s₂ hs₂ rec₂ h₂
      obtain ⟨hw₂, heq₂⟩ :=
        (Sphere.hit_eq_some s₂ ray t_min t_max rec₂).mp h₂
      rw [heq₂, Sphere.mkHitRec_t]
      exact hall s₂ hs₂ hw₂
  · rw [Objects.hit_none_iff]
    constructor
    · intro h s hs
      exact (Sphere.hit_eq_none s ray t_min t_max).mpr (h s hs)
    · intro h s hs
      exact (Sphere.hit_eq_none s ray t_min t_max).mp (h s hs)
  · intro world₂ hp
    exact Objects.hit_map_t_perm ray t_min t_max hp

/-- Witness for C2 at the two-sphere overlap example of the spec. -/
theorem objects_hit_nearest_witness :
    ((0 : ℝ) ≤ 1000)
    ∧ Option.map HitRecord.t (Objects.hit [sphereA, sphereB] ray5 0 1000)
        = Option.map HitRecord.t (Objects.hit [sphereB, sphereA] ray5 0 1000) :=
  ⟨by norm_num,
    (objects_hit_nearest [sphereA, sphereB] ray5 0 1000 (by norm_num)).2.2
      [sphereB, sphereA] (List.Perm.swap sphereB sphereA [])⟩

/-- C3: HitRecord::from keeps the outward normal and sets front_face when
dot(direction, outward) < 0, negates the normal otherwise, and therefore
dot(direction, normal) ≤ 0 for every record, in particular for every
record produced by Sphere::hit. -/
theorem hit_record_normal_orientation (ray : Ray) (p : Vec3) (t : ℝ)
    (outward : Vec3) :
    (Vec3.dot ray.direction outward < 0 →
      (HitRecord.make ray p t outward).front_face = true
      ∧ (HitRecord.make ray p t outward).normal = outward)
    ∧ (0 ≤ Vec3.dot ray.direction outward →
      (HitRecord.make ray p t outward).normal = -outward)
    ∧ Vec3.dot ray.direction (HitRecord.make ray p t outward).normal ≤ 0
    ∧ ∀ (s : Sphere) (lo hi : ℝ) (rec : HitRecord),
        Sphere.hit s ray lo hi = some rec →
        Vec3.dot ray.direction rec.normal ≤ 0 := by
  refine ⟨?_, ?_, dot_make_normal_nonpos ray p t outward, ?_⟩
  · intro h
    rw [HitRecord.make_front_face, HitRecord.make_normal, if_pos h]
    exact ⟨by simp [h], rfl⟩
  · intro h
    rw [HitRecord.make_normal, if_neg (not_lt.mpr h)]
  · intro s lo hi rec hrec
    obtain ⟨-, heq⟩ := (Sphere.hit_eq_some s ray lo hi rec).mp hrec
    rw [heq]
    exact dot_make_normal_nonpos ray _ _ _

/-- Witness for C3 at a concrete front-face hit. -/
theorem hit_record_normal_orientation_witness :
    Vec3.dot ray5.direction (⟨0, 0, 1⟩ : Vec3) < 0
    ∧ (HitRecord.make ray5 ⟨0, 0, -1⟩ 1 ⟨0, 0, 1⟩).front_face = true
    ∧ (HitRecord.make ray5 ⟨0, 0, -1⟩ 1 ⟨0, 0, 1⟩).normal = ⟨0, 0, 1⟩
    ∧ Vec3.dot ray5.direction rec5.normal ≤ 0 := by
  have hdot : Vec3.dot ray5.direction (⟨0, 0, 1⟩ : Vec3) < 0 := by
    norm_num [Vec3.dot, ray5]
  obtain ⟨h1, h2⟩ :=
    (hit_record_normal_orientation ray5 ⟨0, 0, -1⟩ 1 ⟨0, 0, 1⟩).1 hdot
  exact ⟨hdot, h1, h2,
    (hit_record_normal_orientation ray5 ⟨0, 0, -1⟩ 1 ⟨0, 0, 1⟩).2.2.2
      s5 0 1000 rec5 s5_hit⟩

/-- C4: with the bounce budget exhausted (depth_remaining ≤ 0), Ray::color
returns black (0,0,0) for every world and every random stream, so it
consults neither the scene nor the random source. -/
theorem ray_color_depth_exhausted_black (world : List Sphere) (ray : Ray)
    (depth : ℤ) (scatter : ℕ → Vec3) (k : ℕ) (h : depth ≤ 0) :
    rayColor world ray depth scatter k = ⟨0, 0, 0⟩ := by
  rw [rayColor, if_pos h]

/-- Witness for C4 at depth 0. -/
theorem ray_color_depth_exhausted_black_witness :
    (0 : ℤ) ≤ 0 ∧ rayColor [] ray5 0 scat0 0 = ⟨0, 0, 0⟩ :=
  ⟨le_refl 0, ray_color_depth_exhausted_black [] ray5 0 scat0 0 (le_refl 0)⟩

/-- C5: with positive depth and a successful scene query, Ray::color
scatters toward hit.p + hit.normal + r with r the next unit-sphere sample,
recurses from hit.p with depth - 1, and returns half the recursive color. -/
theorem ray_color_hit_case (world : List Sphere) (ray : Ray) (depth : ℤ)
    (scatter : ℕ → Vec3) (k : ℕ) (h : 0 < depth) (hit : HitRecord)
    (hh : Objects.hit world ray 0 1000 = some hit) :
    rayColor world ray depth scatter k =
      (0.5 : ℝ) •
        rayColor world ⟨hit.p, hit.p + hit.normal + scatter k - hit.p⟩
          (depth - 1) scatter (k + 1) := by
  rw [rayColor, if_neg (by omega), hh]

/-- Witness for C5 at a one-sphere scene hit head on. -/
theorem ray_color_hit_case_witness :
    (0 : ℤ) < 1
    ∧ Objects.hit [s5] ray5 0 1000 = some rec5
    ∧ rayColor [s5] ray5 1 scat0 0 =
        (0.5 : ℝ) •
          rayColor [s5] ⟨rec5.p, rec5.p + rec5.normal + scat0 0 - rec5.p⟩
            (1 - 1) scat0 (0 + 1) :=
  ⟨by norm_num, w5_hit,
    ray_color_hit_case [s5] ray5 1 scat0 0 (by norm_num) rec5 w5_hit⟩

/-- C6: with positive depth and no scene hit, Ray::color returns the
vertical background gradient (1-t)(1,1,1) + t(0.5,0.7,1.0) with
t = 0.5 (unit_direction.y + 1); it is exactly white when the normalized
y component is -1 and exactly sky blue when it is +1. -/
theorem ray_color_miss_background (world : List Sphere) (ray : Ray)
    (depth : ℤ) (scatter : ℕ → Vec3) (k : ℕ) (h : 0 < depth)
    (hm : Objects.hit world ray 0 1000 = none) :
    rayColor world ray depth scatter k =
      (1 - 0.5 * ((ray.direction.normalize).y + 1)) • (⟨1, 1, 1⟩ : Vec3)
        + (0.5 * ((ray.direction.normalize).y + 1)) • (⟨0.5, 0.7, 1.0⟩ : Vec3)
    ∧ ((ray.direction.normalize).y = -1 →
        rayColor world ray depth scatter k = ⟨1, 1, 1⟩)
    ∧ ((ray.direction.normalize).y = 1 →
        rayColor world ray depth scatter k = ⟨0.5, 0.7, 1.0⟩) := by
  have hbg : rayColor world ray depth scatter k = background ray := by
    rw [rayColor, if_neg (by omega), hm]
  have hbg2 : background ray =
      (1 - 0.5 * ((ray.direction.normalize).y + 1)) • (⟨1, 1, 1⟩ : Vec3)
        + (0.5 * ((ray.direction.normalize).y + 1)) •
            (⟨0.5, 0.7, 1.0⟩ : Vec3) := rfl
  rw [hbg, hbg2]
  refine ⟨rfl, ?_, ?_⟩
  · intro hy
    rw [hy]
    norm_num
  · intro hy
    rw [hy]
    norm_num

/-- Witness for C6: a downward ray in the empty scene gives pure white. -/
theorem ray_color_miss_background_witness :
    (0 : ℤ) < 1
    ∧ Objects.hit [] ray6 0 1000 = none
    ∧ rayColor [] ray6 1 scat0 0 = ⟨1, 1, 1⟩ :=
  ⟨by norm_num, rfl,
    (ray_color_miss_background [] ray6 1 scat0 0 (by norm_num) rfl).2.1
      ray6_normalize_y⟩

/-- The squared distance from the sphere center to the ray point at
parameter t, as a quadratic in t. -/
theorem normSq_at_sub_center (s : Sphere) (ray : Ray) (t : ℝ) :
    (ray.at t - s.center).normSq =
      ray.direction.normSq * t ^ 2 + 2 * s.halfB ray * t
        + (ray.origin - s.center).normSq := by
  simp [Ray.at, Vec3.normSq, Vec3.dot, Sphere.halfB]
  ring

/-- C7: Sphere::hit returns none whenever the discriminant is negative;
in particular a ray line that stays strictly farther from the center
than the radius (closest approach exceeds the radius) reports no hit. -/
theorem sphere_hit_miss_none (s : Sphere) (ray : Ray) (lo hi : ℝ) :
    (s.disc ray < 0 → Sphere.hit s ray lo hi = none)
    ∧ (0 < ray.direction.normSq →
        (∀ t : ℝ, s.radius * s.radius < (ray.at t - s.center).normSq) →
        Sphere.hit s ray lo hi = none) := by
  constructor
  · intro hd
    rw [Sphere.hit_eq_none]
    rintro ⟨hd2, -, -⟩
    exact absurd hd (not_lt.mpr hd2)
  · intro ha hfar
    have hmin := hfar (-(s.halfB ray) / ray.direction.normSq)
    rw [normSq_at_sub_center] at hmin
    have hd : s.disc ray < 0 := by
      unfold Sphere.disc Sphere.cCoeff
      have expand : ray.direction.normSq *
            (-(s.halfB ray) / ray.direction.normSq) ^ 2
            + 2 * s.halfB ray * (-(s.halfB ray) / ray.direction.normSq)
            + (ray.origin - s.center).normSq
          = (ray.origin - s.center).normSq
            - s.halfB ray * s.halfB ray / ray.direction.normSq := by
        field_simp
        ring
      rw [expand] at hmin
      have h2 : s.halfB ray * s.halfB ray / ray.direction.normSq
          < (ray.origin - s.center).normSq - s.radius * s.radius := by
        linarith
      have h3 := (div_lt_iff₀ ha).mp h2
      linarith
    rw [Sphere.hit_eq_none]
    rintro ⟨hd2, -, -⟩
    exact absurd hd (not_lt.mpr hd2)

/-- Witness for C7: ray7 points away from s5 and the discriminant is -3. -/
theorem sphere_hit_miss_none_witness :
    Sphere.disc s5 ray7 < 0 ∧ Sphere.hit s5 ray7 0 1000 = none := by
  have hd : Sphere.disc s5 ray7 < 0 := by
    rw [ray7_disc]
    norm_num
  exact ⟨hd, (sphere_hit_miss_none s5 ray7 0 1000).1 hd⟩

/-- C8 counterexample: on the all-zero stream every candidate of the
rejection loop is (-1,-1,-1), of squared norm 3, so the exit guard of the
loop in random_in_unit_sphere never holds: the loop never returns, and
ray_color does not terminate for this random source once it reaches a
bounce. -/
theorem rejection_loop_never_exits_on_zero_stream :
    neverAccepts zeroStream := by
  intro j
  norm_num [rngAccept, sampleVec, zeroStream, Vec3.normSq, Vec3.dot]

theorem rayColorRaw_count_le (world : List Sphere) (g : ℕ → ℝ) :
    ∀ (n : ℕ) (depth : ℤ), depth.toNat ≤ n → ∀ (ray : Ray) (m : ℕ),
      (rayColorRaw world g ray depth m).2.2 ≤ depth.toNat := by
  intro n
  induction n with
  | zero =>
    intro depth hd ray m
    have h0 : depth ≤ 0 := by omega
    rw [rayColorRaw, if_pos h0]
    exact Nat.zero_le _
  | succ n ih =>
    intro depth hd ray m
    by_cases h0 : depth ≤ 0
    · rw [rayColorRaw, if_pos h0]
      exact Nat.zero_le _
    · rw [rayColorRaw, if_neg h0]
      cases hhit : Objects.hit world ray 0 1000 with
      | none => exact Nat.zero_le _
      | some hit =>
        have hrec := ih (depth - 1) (by omega)
          ⟨hit.p, hit.p + hit.normal + randomInUnitSphere g m - hit.p⟩
          (m + 3 * nextAccept g m + 3)
        show (rayColorRaw world g
            ⟨hit.p, hit.p + hit.normal + randomInUnitSphere g m - hit.p⟩
            (depth - 1) (m + 3 * nextAccept g m + 3)).2.2 + 1 ≤ depth.toNat
        omega

/-- C8 (amended): for every random stream that, from every position,
eventually yields a candidate with squared norm below 1, ray_color
terminates: the recursion performs at most max(depth, 0) bounces, and
each rejection loop returns its first accepted in-ball candidate. -/
theorem ray_color_terminates_bounded (world : List Sphere) (g : ℕ → ℝ)
    (ray : Ray) (depth : ℤ) (m : ℕ) (hg : eventuallyAccepts g) :
    (rayColorRaw world g ray depth m).2.2 ≤ depth.toNat
    ∧ (randomInUnitSphere g m).normSq < 1
    ∧ ∀ j < nextAccept g m, ¬ rngAccept g (m + 3 * j) := by
  refine ⟨rayColorRaw_count_le world g depth.toNat depth (le_refl _) ray m,
    ?_, ?_⟩
  · exact Nat.sInf_mem (hg m)
  · intro j hj
    exact Nat.not_mem_of_lt_sInf hj

/-- Witness for C8 on the constant one-half stream, whose first candidate
is already inside the unit ball. -/
theorem ray_color_terminates_bounded_witness :
    eventuallyAccepts halfStream
    ∧ (rayColorRaw [] halfStream ray5 1 0).2.2 ≤ (1 : ℤ).toNat
    ∧ (randomInUnitSphere halfStream 0).normSq < 1 :=
  ⟨halfStream_accepts,
    (ray_color_terminates_bounded [] halfStream ray5 1 0 halfStream_accepts).1,
    (ray_color_terminates_bounded [] halfStream ray5 1 0
      halfStream_accepts).2.1⟩

theorem floor_clamp_bounds (x : ℝ) :
    0 ≤ ⌊256 * clampColor x⌋ ∧ ⌊256 * clampColor x⌋ ≤ 255 := by
  have h0 : 0 ≤ clampColor x := le_min (le_max_right x 0) (by norm_num)
  have h1 : clampColor x ≤ 0.999 := min_le_right _ _
  constructor
  · exact Int.le_floor.mpr (by push_cast; exact mul_nonneg (by norm_num) h0)
  · have h2 : ⌊256 * clampColor x⌋ < 256 :=
      Int.floor_lt.mpr (by push_cast; linarith)
    omega

/-- C9: the per-pixel conversion scales each channel by 1/samples, clamps
to [0, 0.999], quantizes via floor(256 x), and every emitted channel is an
integer in [0, 255]. -/
theorem color_output_channels_bounded (color : Vec3) (spp : ℤ)
    (_h : 1 ≤ spp) :
    colorToString color spp =
      (⌊256 * clampColor (color.x * (1 / (spp : ℝ)))⌋,
       ⌊256 * clampColor (color.y * (1 / (spp : ℝ)))⌋,
       ⌊256 * clampColor (color.z * (1 / (spp : ℝ)))⌋)
    ∧ (0 ≤ (colorToString color spp).1 ∧ (colorToString color spp).1 ≤ 255)
    ∧ (0 ≤ (colorToString color spp).2.1 ∧
        (colorToString color spp).2.1 ≤ 255)
    ∧ (0 ≤ (colorToString color spp).2.2 ∧
        (colorToString color spp).2.2 ≤ 255) :=
  ⟨rfl, floor_clamp_bounds _, floor_clamp_bounds _, floor_clamp_bounds _⟩

/-- Witness for C9 at one sample per pixel. -/
theorem color_output_channels_bounded_witness :
    (1 : ℤ) ≤ 1
    ∧ 0 ≤ (colorToString ⟨1, 2, 3⟩ 1).1
    ∧ (colorToString ⟨1, 2, 3⟩ 1).1 ≤ 255 :=
  ⟨le_refl 1, (color_output_channels_bounded ⟨1, 2, 3⟩ 1 (le_refl 1)).2.1.1,
    (color_output_channels_bounded ⟨1, 2, 3⟩ 1 (le_refl 1)).2.1.2⟩

/-- C10: with positive depth Ray::color queries the scene exactly over the
fixed bounds 0 and 1000; a sphere whose accepted root exceeds 1000 yields
no hit under these bounds, and a world of only such spheres is shaded with
the background gradient as if nothing were hit. -/
theorem ray_color_scene_query_bounds (world : List Sphere) (ray : Ray)
    (depth : ℤ) (scatter : ℕ → Vec3) (k : ℕ) (h : 0 < depth) :
    (rayColor world ray depth scatter k =
      match Objects.hit world ray 0 1000 with
      | some hit =>
        (0.5 : ℝ) •
          rayColor world ⟨hit.p, hit.p + hit.normal + scatter k - hit.p⟩
            (depth - 1) scatter (k + 1)
      | none => background ray)
    ∧ (∀ s : Sphere, 1000 < s.root1 ray → Sphere.hit s ray 0 1000 = none)
    ∧ ((∀ s ∈ world, 1000 < s.root1 ray) →
        rayColor world ray depth scatter k = background ray) := by
  have hfar : ∀ s : Sphere, 1000 < s.root1 ray →
      Sphere.hit s ray 0 1000 = none := by
    intro s hs
    rw [Sphere.hit_eq_none]
    rintro ⟨-, -, h3⟩
    linarith
  refine ⟨?_, hfar, ?_⟩
  · rw [rayColor, if_neg (by omega)]
  · intro hall
    have hnone : Objects.hit world ray 0 1000 = none := by
      rw [Objects.hit_none_iff]
      intro s hs
      rintro ⟨-, -, h3⟩
      exact absurd h3 (not_le.mpr (hall s hs))
    rw [rayColor, if_neg (by omega), hnone]

/-- Witness for C10: a sphere first hit at t = 2000 is ignored and the ray
is shaded with the background. -/
theorem ray_color_scene_query_bounds_witness :
    (0 : ℤ) < 1
    ∧ (∀ s ∈ [sFar], 1000 < Sphere.root1 s ray5)
    ∧ rayColor [sFar] ray5 1 scat0 0 = background ray5 := by
  have hall : ∀ s ∈ [sFar], 1000 < Sphere.root1 s ray5 := by
    intro s hs
    rw [List.mem_singleton] at hs
    rw [hs, sFar_root1]
    norm_num
  exact ⟨by norm_num, hall,
    (ray_color_scene_query_bounds [sFar] ray5 1 scat0 0 (by norm_num)).2.2
      hall⟩
